import Mathlib

/-!
Shallow embedding of the BONESIM Boolean-network simulator core
(src/js/simulator.js): the synchronous updater, the state codec, the
attractor search engine and the two rule-table text exports, together
with theorems settling the specification claims about them.
-/

namespace BoneSim

/-- Node identifiers are opaque strings. -/
abbrev NodeId := String

/-- A JS object used as an ordered map from node id to Boolean value
(`network.state` and the trajectory states in `simulator.js`).
Entries appear in JS insertion order. -/
abbrev StateMap := List (NodeId × Bool)

/-- Reading `state[i]` on a JS object: the value at the entry with key
`i`, or `none` when the key is absent (JS `undefined`). -/
def lookupState : StateMap → NodeId → Option Bool
  | [], _ => none
  | p :: rest, i => if p.1 = i then some p.2 else lookupState rest i

/-- The key list of a state, in iteration order. -/
def keysOf (s : StateMap) : List NodeId := s.map Prod.fst

/-- Writing `state[i] = v` on a JS object: overwrite the entry with key
`i` in place, or append a fresh key at the end. -/
def jsUpdate : StateMap → NodeId → Bool → StateMap
  | [], i, v => [(i, v)]
  | p :: rest, i, v => if p.1 = i then (i, v) :: rest else p :: jsUpdate rest i v

/-- A network: the dynamic nodes (the keys of `network.state` in JS
iteration order) together with the compiled rule functions
(`ruleFunctions` in `simulator.js`). -/
structure Network where
  nodes : List NodeId
  rules : NodeId → StateMap → Bool

/-- `synchronousUpdate`, first loop: `newState[i] = ruleFunctions[i](state)`.
Every candidate is computed from the single snapshot `state` passed in. -/
def candState (net : Network) (state : StateMap) : NodeId → Bool :=
  fun i => net.rules i state

/-- `synchronousUpdate`, first loop: `if (newState[i] !== state[i]) changed.push(i)`,
iterating over the keys of `network.state`. -/
def changedIds (net : Network) (state : StateMap) : List NodeId :=
  net.nodes.filter (fun i => some (candState net state i) != lookupState state i)

/-- `synchronousUpdate(state)` from `simulator.js` (lines 332-349): compute
all candidate values from the unmodified input state, then write back only
the changed ones and return the list of changed node ids. -/
def synchronousUpdate (net : Network) (state : StateMap) : StateMap × List NodeId :=
  ((changedIds net state).foldl (fun st i => jsUpdate st i (candState net state i)) state,
   changedIds net state)

/-- The state after one synchronous update. -/
def stepState (net : Network) (s : StateMap) : StateMap :=
  (synchronousUpdate net s).1

/-- `n` synchronous updates, first step peeled. -/
def stepIter (net : Network) : Nat → StateMap → StateMap
  | 0, s => s
  | n + 1, s => stepIter net n (stepState net s)

/-- `encodeStateMap(state)` (lines 431-437): one character per entry of the
state passed in, `'1'` for true and `'0'` for false (JS `map += +state[i]`),
in the state's own iteration order. -/
def encodeStateMap (state : StateMap) : String :=
  String.mk (state.map (fun p => if p.2 then '1' else '0'))

/-- `Boolean(parseInt(c, 10))` on a single character (or on `undefined` when
the character is absent): a decimal digit other than `'0'` gives `true`;
`'0'`, a non-digit character and an absent character all give `false`. -/
def jsCharToBool : Option Char → Bool
  | none => false
  | some c => c.isDigit && c != '0'

/-- `decodeStateMap`, the loop over the keys of `network.state`:
`state[i] = Boolean(parseInt(map[j++], 10))`. -/
def decodeList : List NodeId → List Char → StateMap
  | [], _ => []
  | i :: rest, m => (i, jsCharToBool m.head?) :: decodeList rest m.tail

/-- `decodeStateMap(map)` (lines 444-449): assign position `j` of the map to
the `j`-th key of `network.state` (passed here as `nodes`). -/
def decodeStateMap (nodes : List NodeId) (m : String) : StateMap :=
  decodeList nodes m.data

/-- JS `String.prototype.replace` with a global literal pattern: scan left
to right, replace each non-overlapping occurrence of `pat` by `rep` and
continue after the replaced stretch.  The `Nat` argument is recursion fuel;
`jsReplace` supplies enough of it for the whole input. -/
def replaceAllAux (pat rep : List Char) : Nat → List Char → List Char
  | 0, s => s
  | _, [] => []
  | fuel + 1, c :: rest =>
    if !pat.isEmpty && pat.isPrefixOf (c :: rest) then
      rep ++ replaceAllAux pat rep fuel (List.drop pat.length (c :: rest))
    else
      c :: replaceAllAux pat rep fuel rest

/-- `s.replace(/pat/g, rep)` for a literal pattern `pat`. -/
def jsReplace (s pat rep : String) : String :=
  String.mk (replaceAllAux pat.data rep.data s.data.length s.data)

/-- The per-rule operator rewrite of `exportRBoolNet` (lines 635-638). -/
def rTransformRule (r : String) : String :=
  jsReplace (jsReplace (jsReplace (jsReplace r "&&" "&") "||" "|") "true" "TRUE")
    "false" "FALSE"

/-- `Simulator.exportRBoolNet` (lines 628-642): header line, then one line
`id, rewritten-rule` per entry of `network.rules`. -/
def exportRBoolNet (rules : List (NodeId × String)) : String :=
  rules.foldl (fun acc p => acc ++ p.1 ++ ", " ++ rTransformRule p.2 ++ "\n")
    "targets, factors\n"

/-- The per-rule operator rewrite of `exportPythonBooleanNet` (lines
656-660).  Note the last step replaces the bare character `'!'` by the
three characters `not` with no surrounding spaces. -/
def pyTransformRule (r : String) : String :=
  jsReplace (jsReplace (jsReplace (jsReplace (jsReplace r "&&" "and") "||" "or")
    "true" "True") "false" "False") "!" "not"

/-- `Simulator.exportPythonBooleanNet` (lines 649-664): one line
`id* = rewritten-rule` per entry of `network.rules`. -/
def exportPythonBooleanNet (rules : List (NodeId × String)) : String :=
  rules.foldl (fun acc p => acc ++ p.1 ++ "* = " ++ pyTransformRule p.2 ++ "\n") ""

/-- JS `String.prototype.includes` on the underlying character lists:
does `needle` occur contiguously inside the first list? -/
def strContains : List Char → List Char → Bool
  | [], needle => needle.isEmpty
  | c :: rest, needle => needle.isPrefixOf (c :: rest) || strContains rest needle

/-- The `sb.Document` built by `Simulator.search`: its nodes are state keys
(in creation order) and its arcs connect a key to its successor key. -/
structure SBDocument where
  graphNodes : List String
  arcs : List (String × String)
deriving DecidableEq

/-- JS `Array.prototype.indexOf` on a list of keys: index of the first
occurrence, or the list's length when the key is absent (the source checks
`idx !== -1`, modelled here by a separate membership test). -/
def idxOfKey : List String → String → Nat
  | [], _ => 0
  | a :: rest, m => if a = m then 0 else idxOfKey rest m + 1

/-- One trajectory of `Simulator.search` (lines 583-616), the inner
`for (j = 0;; j++)` loop: encode the current state; if the key is already a
graph node, append `currStates.slice(idx)` to the attractors when the key
occurs in `currStates` (JS `indexOf` / `idx !== -1`), record the final arc
and stop; otherwise create the graph node, record the arc, push the key,
advance the state with `synchronousUpdate` and continue.  The `Nat`
argument is recursion fuel; `none` means the fuel ran out. -/
def runTrajectory (net : Network) :
    Nat → StateMap → List String → String → SBDocument → List (List String) →
    Option (SBDocument × List (List String))
  | 0, _, _, _, _, _ => none
  | fuel + 1, state, currStates, prev, doc, atts =>
    let m := encodeStateMap state
    if m ∈ doc.graphNodes then
      some (if prev.length > 0 then { doc with arcs := doc.arcs ++ [(prev, m)] } else doc,
            if m ∈ currStates then atts ++ [currStates.drop (idxOfKey currStates m)]
            else atts)
    else
      runTrajectory net fuel (synchronousUpdate net state).1 (currStates ++ [m]) m
        { graphNodes := doc.graphNodes ++ [m],
          arcs := if prev.length > 0 then doc.arcs ++ [(prev, m)] else doc.arcs }
        atts

/-- The outer loop of `Simulator.search`: run one trajectory per initial
state, threading the document and the attractor list through. -/
def searchFrom (net : Network) (fuel : Nat) :
    List StateMap → SBDocument → List (List String) →
    Option (SBDocument × List (List String))
  | [], doc, atts => some (doc, atts)
  | s :: rest, doc, atts =>
    match runTrajectory net fuel s [] "" doc atts with
    | none => none
    | some (doc2, atts2) => searchFrom net fuel rest doc2 atts2

/-- `Simulator.search` (local-stepping path): start from an empty document
and an empty attractor list.  The random `getInitStates` list is passed in
as a parameter. -/
def search (net : Network) (fuel : Nat) (initStates : List StateMap) :
    Option (SBDocument × List (List String)) :=
  searchFrom net fuel initStates { graphNodes := [], arcs := [] } []

/-- The two-node network in which each node's rule is the other's negation
(rule texts `A = !B`, `B = !A`; a JS rule function reads `!state[..]`,
where `!undefined` is `true`, hence the `getD false`). -/
def negNet : Network where
  nodes := ["A", "B"]
  rules := fun i s =>
    if i = "A" then !((lookupState s "B").getD false)
    else if i = "B" then !((lookupState s "A").getD false)
    else false

/-- The one-node network with rule text `A = true`. -/
def oneNet : Network where
  nodes := ["A"]
  rules := fun _ _ => true

/-- The one-node network whose node's rule is its own current value
(rule text `A = A`). -/
def idNet : Network where
  nodes := ["A"]
  rules := fun i s => (lookupState s i).getD false

/-! ### Lemmas about JS object reads and writes -/

lemma lookupState_jsUpdate_self (st : StateMap) (i : NodeId) (v : Bool) :
    lookupState (jsUpdate st i v) i = some v := by
  induction st with
  | nil => simp [jsUpdate, lookupState]
  | cons p rest ih =>
    by_cases h : p.1 = i
    · simp [jsUpdate, h, lookupState]
    · simp [jsUpdate, h, lookupState, ih]

lemma lookupState_jsUpdate_other (st : StateMap) (i j : NodeId) (v : Bool)
    (h : j ≠ i) : lookupState (jsUpdate st i v) j = lookupState st j := by
  induction st with
  | nil =>
    simp only [jsUpdate, lookupState]
    rw [if_neg (fun hh => h hh.symm)]
  | cons p rest ih =>
    by_cases hp : p.1 = i
    · simp only [jsUpdate, if_pos hp, lookupState]
      rw [if_neg (fun hh => h hh.symm), if_neg (fun hh => h (hp ▸ hh).symm)]
    · by_cases hj : p.1 = j
      · simp only [jsUpdate, if_neg hp, lookupState, if_pos hj]
      · simp only [jsUpdate, if_neg hp, lookupState, if_neg hj, ih]

lemma lookupState_foldl_jsUpdate (cand : NodeId → Bool) :
    ∀ (l : List NodeId) (st : StateMap) (j : NodeId),
    lookupState (l.foldl (fun st i => jsUpdate st i (cand i)) st) j
      = if j ∈ l then some (cand j) else lookupState st j
  | [], st, j => by simp
  | a :: l, st, j => by
    rw [List.foldl_cons, lookupState_foldl_jsUpdate cand l]
    by_cases hl : j ∈ l
    · simp [hl]
    · by_cases ha : j = a
      · subst ha
        simp [hl, lookupState_jsUpdate_self]
      · simp [hl, ha, lookupState_jsUpdate_other st a j (cand a) ha]

lemma mem_changedIds_iff (net : Network) (state : StateMap) (i : NodeId) :
    i ∈ changedIds net state ↔
      i ∈ net.nodes ∧ some (candState net state i) ≠ lookupState state i := by
  simp [changedIds, List.mem_filter]

lemma synchronousUpdate_fst (net : Network) (state : StateMap) :
    (synchronousUpdate net state).1
      = (changedIds net state).foldl
          (fun st i => jsUpdate st i (candState net state i)) state := rfl

lemma synchronousUpdate_snd (net : Network) (state : StateMap) :
    (synchronousUpdate net state).2 = changedIds net state := rfl

lemma lookupState_stepState (net : Network) (state : StateMap) (j : NodeId) :
    lookupState (stepState net state) j =
      if j ∈ changedIds net state then some (candState net state j)
      else lookupState state j := by
  rw [stepState, synchronousUpdate_fst, lookupState_foldl_jsUpdate]

/-! ### C1, C5, C6: properties of the synchronous updater -/

/-- C1 (amended).  Synchronicity of step: every rule function invoked within
one call of the synchronous update is evaluated against the unmodified
pre-step input state — after the call, every dynamic node holds exactly its
rule's value on the pre-step state, so no rule observes another rule's new
value within the same step.  In the two-node network where each node's rule
is the other's negation, every step from a state in which both nodes hold
equal values changes both nodes, and the network oscillates between the
all-true and the all-false state; from a state with opposite values the
network is at a fixed point and no step changes anything. -/
theorem sync_update_reads_pre_state :
    (∀ (net : Network) (state : StateMap) (i : NodeId), i ∈ net.nodes →
      lookupState (synchronousUpdate net state).1 i = some (net.rules i state)) ∧
    (∀ a : Bool, synchronousUpdate negNet [("A", a), ("B", a)]
        = ([("A", !a), ("B", !a)], ["A", "B"])) := by
  constructor
  · intro net state i hi
    rw [show (synchronousUpdate net state).1 = stepState net state from rfl,
      lookupState_stepState]
    by_cases hc : i ∈ changedIds net state
    · rw [if_pos hc]; rfl
    · rw [if_neg hc]
      have h2 : ¬some (candState net state i) ≠ lookupState state i :=
        fun hne => hc ((mem_changedIds_iff net state i).2 ⟨hi, hne⟩)
      exact (not_not.mp h2).symm
  · intro a
    cases a <;> decide

/-- Witness for `sync_update_reads_pre_state`: in the two-node negation
network starting from the all-true state, node `A` ends up holding its
rule's value on the pre-step state, and the step flips both nodes. -/
theorem sync_update_reads_pre_state_witness :
    lookupState (synchronousUpdate negNet [("A", true), ("B", true)]).1 "A"
        = some (negNet.rules "A" [("A", true), ("B", true)]) ∧
    synchronousUpdate negNet [("A", true), ("B", true)]
        = ([("A", false), ("B", false)], ["A", "B"]) :=
  ⟨sync_update_reads_pre_state.1 negNet [("A", true), ("B", true)] "A" (by decide),
   sync_update_reads_pre_state.2 true⟩

/-- Counterexample to C1 as stated: in the two-node network where each
node's rule is the other's negation, the state (A = true, B = false) is a
fixed point — a step from it changes no node at all, so it is not the case
that every step changes both nodes and that the network never stabilizes. -/
theorem neg_network_mixed_state_is_fixed :
    synchronousUpdate negNet [("A", true), ("B", false)]
      = ([("A", true), ("B", false)], []) := by decide

/-- C5.  Frame effect of step: after one synchronous update, every
identifier not in the returned changed-id list holds exactly its pre-step
value, every identifier in the list holds its rule's candidate value which
differs from its pre-step value, and the list contains exactly the
identifiers whose value changed. -/
theorem step_frame_effect (net : Network) (state : StateMap) :
    (∀ i, i ∉ (synchronousUpdate net state).2 →
      lookupState (synchronousUpdate net state).1 i = lookupState state i) ∧
    (∀ i, i ∈ (synchronousUpdate net state).2 →
      lookupState (synchronousUpdate net state).1 i = some (net.rules i state) ∧
      some (net.rules i state) ≠ lookupState state i) ∧
    (∀ i, i ∈ (synchronousUpdate net state).2 ↔
      lookupState (synchronousUpdate net state).1 i ≠ lookupState state i) := by
  have hfst : (synchronousUpdate net state).1 = stepState net state := rfl
  have hsnd : (synchronousUpdate net state).2 = changedIds net state := rfl
  rw [hfst, hsnd]
  refine ⟨?_, ?_, ?_⟩
  · intro i hi
    rw [lookupState_stepState, if_neg hi]
  · intro i hi
    have hne := ((mem_changedIds_iff net state i).1 hi).2
    exact ⟨by rw [lookupState_stepState, if_pos hi]; rfl, hne⟩
  · intro i
    constructor
    · intro hi
      have hne := ((mem_changedIds_iff net state i).1 hi).2
      rw [lookupState_stepState, if_pos hi]
      exact hne
    · intro hne
      by_contra hi
      exact hne (by rw [lookupState_stepState, if_neg hi])

/-- Witness for `step_frame_effect`: in the two-node negation network from
the all-true state, an identifier outside the changed list keeps its value
(including one not in the network at all), and changed node `B` holds its
candidate value, which differs from its pre-step value. -/
theorem step_frame_effect_witness :
    lookupState (synchronousUpdate negNet [("A", true), ("B", true)]).1 "Z"
        = lookupState [("A", true), ("B", true)] "Z" ∧
    (lookupState (synchronousUpdate negNet [("A", true), ("B", true)]).1 "B"
        = some (negNet.rules "B" [("A", true), ("B", true)]) ∧
      some (negNet.rules "B" [("A", true), ("B", true)])
        ≠ lookupState [("A", true), ("B", true)] "B") :=
  ⟨(step_frame_effect negNet [("A", true), ("B", true)]).1 "Z" (by decide),
   (step_frame_effect negNet [("A", true), ("B", true)]).2.1 "B" (by decide)⟩

/-- C6.  Fixed-point detection: when every node's rule evaluates to that
node's current value, the synchronous update returns an empty changed-id
list; conversely an empty changed-id list implies the state after the call
equals the state before it. -/
theorem fixed_point_detection (net : Network) (state : StateMap) :
    ((∀ i ∈ net.nodes, some (net.rules i state) = lookupState state i) →
      (synchronousUpdate net state).2 = []) ∧
    ((synchronousUpdate net state).2 = [] →
      (synchronousUpdate net state).1 = state) := by
  constructor
  · intro h
    rw [synchronousUpdate_snd]
    unfold changedIds
    rw [List.filter_eq_nil_iff]
    intro i hi
    simp [candState, h i hi]
  · intro h
    have h2 : changedIds net state = [] := h
    rw [synchronousUpdate_fst, h2]
    rfl

/-- Witness for `fixed_point_detection`: the one-node network whose rule is
the node's own value returns no changes from the state (A = true), and its
state is unchanged by the call. -/
theorem fixed_point_detection_witness :
    (synchronousUpdate idNet [("A", true)]).2 = [] ∧
    (synchronousUpdate idNet [("A", true)]).1 = [("A", true)] :=
  ⟨(fixed_point_detection idNet [("A", true)]).1 (by decide),
   (fixed_point_detection idNet [("A", true)]).2
     ((fixed_point_detection idNet [("A", true)]).1 (by decide))⟩

/-! ### C2, C10, C8: the state codec -/

lemma decode_encode_aux : ∀ s : StateMap,
    decodeList (keysOf s) (s.map (fun p => if p.2 then '1' else '0')) = s := by
  intro s
  induction s with
  | nil => rfl
  | cons p rest ih =>
    obtain ⟨i, b⟩ := p
    show (i, jsCharToBool (some (if b then '1' else '0')))
        :: decodeList (keysOf rest) (rest.map (fun p => if p.2 then '1' else '0'))
      = (i, b) :: rest
    have hb : jsCharToBool (some (if b then '1' else '0')) = b := by
      cases b <;> decide
    rw [hb, ih]

/-- C2.  State codec round-trip: for every full state containing exactly
one Boolean entry per dynamic node in the network's fixed node order,
decoding the encoded key reproduces the state exactly. -/
theorem decode_encode_roundtrip (nodes : List NodeId) (s : StateMap)
    (h : keysOf s = nodes) :
    decodeStateMap nodes (encodeStateMap s) = s := by
  subst h
  exact decode_encode_aux s

/-- Witness for `decode_encode_roundtrip` on a two-node network. -/
theorem decode_encode_roundtrip_witness :
    decodeStateMap ["A", "B"] (encodeStateMap [("A", true), ("B", false)])
      = [("A", true), ("B", false)] :=
  decode_encode_roundtrip ["A", "B"] [("A", true), ("B", false)] (by decide)

lemma decodeList_keys : ∀ (nodes : List NodeId) (m : List Char),
    keysOf (decodeList nodes m) = nodes
  | [], _ => rfl
  | i :: rest, m => by
    show i :: keysOf (decodeList rest m.tail) = i :: rest
    rw [decodeList_keys rest m.tail]

lemma head?_eq_get?_zero (m : List Char) : m.head? = m.get? 0 := by
  cases m <;> rfl

lemma tail_get? (m : List Char) (j : Nat) : m.tail.get? j = m.get? (j + 1) := by
  cases m <;> rfl

lemma decodeList_get? : ∀ (nodes : List NodeId) (m : List Char) (j : Nat)
    (i : NodeId), nodes.get? j = some i →
    (decodeList nodes m).get? j = some (i, jsCharToBool (m.get? j))
  | [], _, j, _, h => by simp at h
  | a :: rest, m, 0, i, h => by
    have ha : a = i := by simpa using h
    subst ha
    show some (a, jsCharToBool m.head?) = some (a, jsCharToBool (m.get? 0))
    rw [head?_eq_get?_zero]
  | a :: rest, m, j + 1, i, h => by
    have h2 : rest.get? j = some i := by simpa using h
    show (decodeList rest m.tail).get? j = some (i, jsCharToBool (m.get? (j + 1)))
    rw [decodeList_get? rest m.tail j i h2, tail_get?]

lemma decodeList_take : ∀ (nodes : List NodeId) (m : List Char),
    decodeList nodes (m.take nodes.length) = decodeList nodes m
  | [], _ => rfl
  | _ :: _, [] => rfl
  | i :: rest, c :: cs => by
    show (i, jsCharToBool (some c)) :: decodeList rest (cs.take rest.length)
      = (i, jsCharToBool (some c)) :: decodeList rest cs
    rw [decodeList_take rest cs]

/-- C10.  Decode is total and keyed by the network: for every input string,
`decodeStateMap` returns (without any error) a state whose key list is
exactly the network's dynamic-node list; position `j` holds the JS value of
the `j`-th character, which is `false` whenever that character is absent or
not a digit; and characters beyond the node count are ignored. -/
theorem decode_total_and_keyed (nodes : List NodeId) (m : String) :
    keysOf (decodeStateMap nodes m) = nodes ∧
    (∀ (j : Nat) (i : NodeId), nodes.get? j = some i →
      (decodeStateMap nodes m).get? j = some (i, jsCharToBool (m.data.get? j))) ∧
    (jsCharToBool none = false ∧
      ∀ c : Char, ¬c.isDigit → jsCharToBool (some c) = false) ∧
    decodeStateMap nodes m = decodeStateMap nodes (String.mk (m.data.take nodes.length)) := by
  refine ⟨decodeList_keys nodes m.data,
    fun j i h => decodeList_get? nodes m.data j i h, ⟨rfl, ?_⟩,
    (decodeList_take nodes m.data).symm⟩
  intro c hc
  simp [jsCharToBool, hc]

/-- Witness for `decode_total_and_keyed`: a three-node network decoding the
two-character string `1x`: the key list is the node list, and the third
node (absent character) holds the JS value of an absent character. -/
theorem decode_total_and_keyed_witness :
    keysOf (decodeStateMap ["A", "B", "C"] "1x") = ["A", "B", "C"] ∧
    (decodeStateMap ["A", "B", "C"] "1x").get? 2
      = some ("C", jsCharToBool ("1x".data.get? 2)) :=
  ⟨(decode_total_and_keyed ["A", "B", "C"] "1x").1,
   (decode_total_and_keyed ["A", "B", "C"] "1x").2.1 2 "C" (by decide)⟩

/-- Counterexample to C8 as stated: the state holding only node `A` is
partial for the two-node network (its key list is not the network's node
list), yet `encodeStateMap` does not fail — it returns the key `1`.  The
source contains no `StateEncodingError`: the encode loop runs over the
entries the state actually has. -/
theorem encode_partial_state_returns_key :
    keysOf [(("A" : NodeId), true)] ≠ negNet.nodes ∧
    encodeStateMap [("A", true)] = "1" := by decide

/-- C8 (amended): encoding a partial state is not an error — for every
state, partial or full, `encodeStateMap` returns a key holding exactly one
character per entry present in the state, so a state missing some dynamic
node silently yields a key shorter than the network's node count rather
than failing with a `StateEncodingError`. -/
theorem encode_length_eq_entry_count (s : StateMap) :
    (encodeStateMap s).length = s.length := by
  simp [encodeStateMap, String.length]

/-! ### C7: the export operator translations -/

/-- Counterexample to C7 as stated: the Python BooleanNet export of the rule
`A && !B || true` does not contain the claimed string `A and not B or True`
anywhere — the source replaces the bare character `'!'` by `not` with no
space, producing `notB`. -/
theorem python_export_lacks_claimed_line :
    strContains (exportPythonBooleanNet [("A", "A && !B || true")]).data
      "A and not B or True".data = false := by decide

/-- C7 (amended): for the rule text `A && !B || true`, the R BoolNet export
produces the line containing `A & !B | TRUE` (AND to `&`, OR to `|`, true
to `TRUE`, false to `FALSE`), and the Python BooleanNet export produces the
line containing `A and notB or True` — AND to `and`, OR to `or`, true to
`True`, false to `False`, and the character `!` to `not` with no space
inserted, so that `!B` becomes `notB`. -/
theorem export_operator_translation :
    exportRBoolNet [("A", "A && !B || true")]
        = "targets, factors\nA, A & !B | TRUE\n" ∧
    strContains (exportRBoolNet [("A", "A && !B || true")]).data
        "A & !B | TRUE".data = true ∧
    exportPythonBooleanNet [("A", "A && !B || true")]
        = "A* = A and notB or True\n" ∧
    strContains (exportPythonBooleanNet [("A", "A && !B || true")]).data
        "A and notB or True".data = true := by decide

/-! ### C3: trajectory termination on a known graph key -/

/-- Unfolding of one trajectory iteration when the key is already a graph
node: the loop breaks with the attractor appended exactly when the key is
in the visited list. -/
lemma runTrajectory_break (net : Network) (fuel : Nat) (state : StateMap)
    (currStates : List String) (prev : String) (doc : SBDocument)
    (atts : List (List String)) (h : encodeStateMap state ∈ doc.graphNodes) :
    runTrajectory net (fuel + 1) state currStates prev doc atts =
      some (if prev.length > 0
              then { doc with arcs := doc.arcs ++ [(prev, encodeStateMap state)] }
              else doc,
            if encodeStateMap state ∈ currStates
              then atts ++ [currStates.drop (idxOfKey currStates (encodeStateMap state))]
              else atts) := by
  simp only [runTrajectory, if_pos h]

/-- Unfolding of one trajectory iteration when the key is new: create the
graph node and the arc, push the key, advance the state and recurse. -/
lemma runTrajectory_step_new (net : Network) (fuel : Nat) (state : StateMap)
    (currStates : List String) (prev : String) (doc : SBDocument)
    (atts : List (List String)) (h : encodeStateMap state ∉ doc.graphNodes) :
    runTrajectory net (fuel + 1) state currStates prev doc atts
      = runTrajectory net fuel (stepState net state)
          (currStates ++ [encodeStateMap state]) (encodeStateMap state)
          { graphNodes := doc.graphNodes ++ [encodeStateMap state],
            arcs := if prev.length > 0 then doc.arcs ++ [(prev, encodeStateMap state)]
                    else doc.arcs } atts := by
  simp only [runTrajectory, if_neg h]
  rfl

/-- C3.  Attractor-search trajectory rule: whenever the current state's key
is already a node of the global transition graph, the trajectory stops at
once with a `some` result (the search moves on to the next initial state),
and no new graph node is created; an attractor is appended exactly when the
key occurs in the current trajectory's visited list, and it is the
sub-sequence of the visited list from the first occurrence of the key to
the end. -/
theorem known_key_terminates_trajectory (net : Network) (fuel : Nat)
    (state : StateMap) (currStates : List String) (prev : String)
    (doc : SBDocument) (atts : List (List String))
    (h : encodeStateMap state ∈ doc.graphNodes) :
    runTrajectory net (fuel + 1) state currStates prev doc atts =
      some (if prev.length > 0
              then { doc with arcs := doc.arcs ++ [(prev, encodeStateMap state)] }
              else doc,
            if encodeStateMap state ∈ currStates
              then atts ++ [currStates.drop (idxOfKey currStates (encodeStateMap state))]
              else atts) :=
  runTrajectory_break net fuel state currStates prev doc atts h

/-- Witness for `known_key_terminates_trajectory`: the one-node `A = true`
network at the state (A = true), whose key `1` is already a graph node and
occurs in the visited list, stops with the one-element attractor. -/
theorem known_key_terminates_trajectory_witness :
    runTrajectory oneNet (0 + 1) [("A", true)] ["0", "1"] "1"
        { graphNodes := ["0", "1"], arcs := [("0", "1")] } [] =
      some ({ graphNodes := ["0", "1"], arcs := [("0", "1"), ("1", "1")] },
        [["1"]]) :=
  (known_key_terminates_trajectory oneNet 0 [("A", true)] ["0", "1"] "1"
      { graphNodes := ["0", "1"], arcs := [("0", "1")] } [] (by decide)).trans
    (by decide)

/-! ### C9: termination of the attractor search -/

/-- A state key of an `n`-node network: a binary string of length `n`. -/
def binKey (n : Nat) (m : String) : Prop :=
  m.data.length = n ∧ ∀ c ∈ m.data, c = '0' ∨ c = '1'

/-- Numeric value of a key, most significant character first. -/
def keyVal : List Char → Nat
  | [] => 0
  | c :: rest => (if c = '1' then 1 else 0) * 2 ^ rest.length + keyVal rest

lemma keyVal_lt : ∀ l : List Char, keyVal l < 2 ^ l.length
  | [] => by simp [keyVal]
  | c :: rest => by
    have ih := keyVal_lt rest
    simp only [keyVal, List.length_cons, pow_succ]
    by_cases hc : c = '1'
    · rw [if_pos hc]; omega
    · rw [if_neg hc]; omega

lemma keyVal_inj : ∀ l₁ l₂ : List Char,
    (∀ c ∈ l₁, c = '0' ∨ c = '1') → (∀ c ∈ l₂, c = '0' ∨ c = '1') →
    l₁.length = l₂.length → keyVal l₁ = keyVal l₂ → l₁ = l₂
  | [], [], _, _, _, _ => rfl
  | [], _ :: _, _, _, h, _ => absurd h (by simp)
  | _ :: _, [], _, _, h, _ => absurd h (by simp)
  | c₁ :: r₁, c₂ :: r₂, hb₁, hb₂, hlen, hval => by
    have e0 : (if ('0' : Char) = '1' then (1 : Nat) else 0) = 0 := by decide
    have e1 : (if ('1' : Char) = '1' then (1 : Nat) else 0) = 1 := by decide
    have hlen2 : r₁.length = r₂.length := by simpa using hlen
    have hv₁ := keyVal_lt r₁
    have hv₂ := keyVal_lt r₂
    simp only [keyVal] at hval
    rw [hlen2] at hval hv₁
    have hrec : keyVal r₁ = keyVal r₂ ∧ c₁ = c₂ := by
      rcases hb₁ c₁ (by simp) with h1 | h1 <;> subst h1 <;>
        rcases hb₂ c₂ (by simp) with h2 | h2 <;> subst h2
      · rw [e0] at hval; exact ⟨by omega, rfl⟩
      · rw [e0, e1] at hval; omega
      · rw [e1, e0] at hval; omega
      · rw [e1] at hval; exact ⟨by omega, rfl⟩
    rw [hrec.2,
      keyVal_inj r₁ r₂ (fun c hc => hb₁ c (by simp [hc]))
        (fun c hc => hb₂ c (by simp [hc])) hlen2 hrec.1]

/-- Pigeonhole: a duplicate-free list of binary keys of length `n` has at
most `2 ^ n` entries. -/
lemma length_le_of_nodup_binKeys (n : Nat) (l : List String)
    (hd : l.Nodup) (hb : ∀ m ∈ l, binKey n m) : l.length ≤ 2 ^ n := by
  have hinj : ∀ x ∈ l, ∀ y ∈ l, keyVal x.data = keyVal y.data → x = y := by
    intro x hx y hy hxy
    have hbx := hb x hx
    have hby := hb y hy
    have hdata : x.data = y.data :=
      keyVal_inj x.data y.data hbx.2 hby.2 (hbx.1.trans hby.1.symm) hxy
    cases x; cases y
    exact congrArg String.mk hdata
  have hmap : (l.map (fun m : String => keyVal m.data)).Nodup := hd.map_on hinj
  have hsub : (l.map (fun m : String => keyVal m.data)).toFinset
      ⊆ Finset.range (2 ^ n) := by
    intro v hv
    rw [List.mem_toFinset, List.mem_map] at hv
    obtain ⟨m, hm, rfl⟩ := hv
    rw [Finset.mem_range]
    have hlt := keyVal_lt m.data
    rwa [(hb m hm).1] at hlt
  have hcard := List.toFinset_card_of_nodup hmap
  have hle := Finset.card_le_card hsub
  rwa [hcard, Finset.card_range, List.length_map] at hle

lemma keysOf_length (s : StateMap) : (keysOf s).length = s.length :=
  List.length_map s Prod.fst

lemma encodeStateMap_binKey (s : StateMap) : binKey s.length (encodeStateMap s) := by
  constructor
  · show (s.map _).length = s.length
    rw [List.length_map]
  · intro c hc
    obtain ⟨p, _, hpc⟩ := List.mem_map.1 hc
    cases hb : p.2 <;> rw [hb] at hpc <;> simp at hpc
    · exact Or.inl hpc.symm
    · exact Or.inr hpc.symm

lemma keysOf_jsUpdate_mem (st : StateMap) (i : NodeId) (v : Bool)
    (h : i ∈ keysOf st) : keysOf (jsUpdate st i v) = keysOf st := by
  induction st with
  | nil => simp [keysOf] at h
  | cons p rest ih =>
    by_cases hp : p.1 = i
    · show keysOf (if p.1 = i then (i, v) :: rest else p :: jsUpdate rest i v)
        = keysOf (p :: rest)
      rw [if_pos hp]
      show i :: keysOf rest = p.1 :: keysOf rest
      rw [hp]
    · show keysOf (if p.1 = i then (i, v) :: rest else p :: jsUpdate rest i v)
        = keysOf (p :: rest)
      rw [if_neg hp]
      show p.1 :: keysOf (jsUpdate rest i v) = p.1 :: keysOf rest
      have h2 : i ∈ keysOf rest := by
        rcases List.mem_cons.1 h with h | h
        · exact absurd h.symm hp
        · exact h
      rw [ih h2]

lemma keysOf_foldl_jsUpdate (cand : NodeId → Bool) :
    ∀ (l : List NodeId) (st : StateMap), (∀ i ∈ l, i ∈ keysOf st) →
    keysOf (l.foldl (fun st i => jsUpdate st i (cand i)) st) = keysOf st
  | [], _, _ => rfl
  | a :: l, st, h => by
    rw [List.foldl_cons]
    have hk := keysOf_jsUpdate_mem st a (cand a) (h a (by simp))
    rw [keysOf_foldl_jsUpdate cand l (jsUpdate st a (cand a))
      (fun i hi => hk ▸ h i (by simp [hi])), hk]

lemma keysOf_stepState (net : Network) (state : StateMap)
    (h : keysOf state = net.nodes) : keysOf (stepState net state) = net.nodes := by
  rw [stepState, synchronousUpdate_fst,
    keysOf_foldl_jsUpdate _ _ _
      (fun i hi => h ▸ ((mem_changedIds_iff net state i).1 hi).1), h]

lemma keysOf_stepIter (net : Network) :
    ∀ (j : Nat) (state : StateMap), keysOf state = net.nodes →
    keysOf (stepIter net j state) = net.nodes
  | 0, _, h => h
  | j + 1, state, h =>
    keysOf_stepIter net j (stepState net state) (keysOf_stepState net state h)

lemma runTrajectory_total (net : Network) :
    ∀ (fuel : Nat) (state : StateMap) (currStates : List String) (prev : String)
      (doc : SBDocument) (atts : List (List String)),
    keysOf state = net.nodes →
    doc.graphNodes.Nodup →
    (∀ m ∈ doc.graphNodes, binKey net.nodes.length m) →
    2 ^ net.nodes.length + 1 ≤ fuel + doc.graphNodes.length →
    ∃ doc2 atts2,
      runTrajectory net fuel state currStates prev doc atts = some (doc2, atts2) ∧
      doc2.graphNodes.Nodup ∧ ∀ m ∈ doc2.graphNodes, binKey net.nodes.length m
  | 0, state, currStates, prev, doc, atts, _, hnd, hbk, hfuel => by
    exfalso
    have := length_le_of_nodup_binKeys net.nodes.length doc.graphNodes hnd hbk
    omega
  | fuel + 1, state, currStates, prev, doc, atts, hk, hnd, hbk, hfuel => by
    by_cases hmem : encodeStateMap state ∈ doc.graphNodes
    · have heq : runTrajectory net (fuel + 1) state currStates prev doc atts
          = some (if prev.length > 0
                    then { doc with arcs := doc.arcs ++ [(prev, encodeStateMap state)] }
                    else doc,
                  if encodeStateMap state ∈ currStates
                    then atts ++ [currStates.drop (idxOfKey currStates (encodeStateMap state))]
                    else atts) := by
        simp only [runTrajectory, if_pos hmem]
      refine ⟨_, _, heq, ?_, ?_⟩
      · split <;> exact hnd
      · split <;> exact hbk
    · have hbnew : binKey net.nodes.length (encodeStateMap state) := by
        have := encodeStateMap_binKey state
        rwa [show state.length = net.nodes.length from by
          rw [← hk, keysOf_length]] at this
      have hnd2 : (doc.graphNodes ++ [encodeStateMap state]).Nodup := by
        rw [List.nodup_append]
        exact ⟨hnd, List.nodup_singleton _,
          fun x hx hx2 => hmem (by rwa [List.mem_singleton.1 hx2] at hx)⟩
      have hbk2 : ∀ m ∈ doc.graphNodes ++ [encodeStateMap state],
          binKey net.nodes.length m := by
        intro m hm
        rcases List.mem_append.1 hm with h | h
        · exact hbk m h
        · rw [List.mem_singleton.1 h]; exact hbnew
      obtain ⟨doc2, atts2, heq, h1, h2⟩ :=
        runTrajectory_total net fuel (stepState net state)
          (currStates ++ [encodeStateMap state]) (encodeStateMap state)
          ⟨doc.graphNodes ++ [encodeStateMap state],
            if prev.length > 0 then doc.arcs ++ [(prev, encodeStateMap state)]
            else doc.arcs⟩ atts
          (keysOf_stepState net state hk) hnd2 hbk2
          (by simp only [List.length_append, List.length_singleton]; omega)
      exact ⟨doc2, atts2, by simp only [runTrajectory, if_neg hmem]; exact heq, h1, h2⟩

lemma searchFrom_total (net : Network) (fuel : Nat) :
    ∀ (initStates : List StateMap) (doc : SBDocument) (atts : List (List String)),
    (∀ s ∈ initStates, keysOf s = net.nodes) →
    doc.graphNodes.Nodup →
    (∀ m ∈ doc.graphNodes, binKey net.nodes.length m) →
    2 ^ net.nodes.length + 1 ≤ fuel →
    ∃ r, searchFrom net fuel initStates doc atts = some r
  | [], doc, atts, _, _, _, _ => ⟨(doc, atts), rfl⟩
  | s :: rest, doc, atts, hks, hnd, hbk, hfuel => by
    obtain ⟨doc2, atts2, heq, h1, h2⟩ :=
      runTrajectory_total net fuel s [] "" doc atts (hks s (by simp)) hnd hbk
        (by omega)
    obtain ⟨r, hr⟩ := searchFrom_total net fuel rest doc2 atts2
      (fun t ht => hks t (by simp [ht])) h1 h2 hfuel
    exact ⟨r, by simp only [searchFrom, heq]; exact hr⟩

/-- C9.  The search terminates: over a finite set of `n` dynamic nodes,
every per-initial-state trajectory loop needs at most `2 ^ n + 1`
iterations — each iteration either reaches a key already present in the
graph and breaks, or adds a previously-absent binary key of length `n` to
the duplicate-free graph, and at most `2 ^ n` such keys exist — so with
fuel `2 ^ n + 1` no trajectory runs out and the whole search over its
fixed list of initial states returns a result. -/
theorem search_always_terminates (net : Network) (fuel : Nat)
    (initStates : List StateMap)
    (hfull : ∀ s ∈ initStates, keysOf s = net.nodes)
    (hfuel : 2 ^ net.nodes.length + 1 ≤ fuel) :
    (search net fuel initStates).isSome = true ∧
    ∀ (state : StateMap) (currStates : List String) (prev : String)
      (doc : SBDocument) (atts : List (List String)),
      keysOf state = net.nodes → doc.graphNodes.Nodup →
      (∀ m ∈ doc.graphNodes, binKey net.nodes.length m) →
      (runTrajectory net fuel state currStates prev doc atts).isSome = true := by
  constructor
  · obtain ⟨r, hr⟩ := searchFrom_total net fuel initStates ⟨[], []⟩ [] hfull
      List.nodup_nil (fun m hm => absurd hm (List.not_mem_nil m)) hfuel
    rw [search, hr]
    rfl
  · intro state currStates prev doc atts hk hnd hbk
    obtain ⟨d2, a2, heq, _, _⟩ :=
      runTrajectory_total net fuel state currStates prev doc atts hk hnd hbk
        (by omega)
    rw [heq]
    rfl

/-- Witness for `search_always_terminates`: the one-node `A = true` network
searched from the single initial state (A = true) with fuel
`2 ^ 1 + 1 = 3` returns a result. -/
theorem search_always_terminates_witness :
    (search oneNet 3 [[("A", true)]]).isSome = true :=
  (search_always_terminates oneNet 3 [[("A", true)]] (by decide) (by decide)).1

/-! ### C4: fixed points yield one-element attractors -/

lemma stepIter_add (net : Network) :
    ∀ (a b : Nat) (s : StateMap),
    stepIter net (a + b) s = stepIter net b (stepIter net a s)
  | 0, b, s => by rw [Nat.zero_add]; rfl
  | a + 1, b, s => by
    have h1 : stepIter net (a + 1 + b) s = stepIter net (a + b) (stepState net s) := by
      rw [show a + 1 + b = (a + b) + 1 from by omega]
      rfl
    rw [h1, stepIter_add net a b (stepState net s)]
    rfl

lemma stepIter_period (net : Network) :
    ∀ (t p : Nat) (x : StateMap), stepIter net p x = x →
    stepIter net (t * p) x = x
  | 0, p, x, _ => by rw [Nat.zero_mul]; rfl
  | t + 1, p, x, hp => by
    rw [show (t + 1) * p = p + t * p from by ring, stepIter_add net, hp,
      stepIter_period net t p x hp]

/-- Before the first fixed point of a trajectory, the visited states are
pairwise distinct: a repeat would make the trajectory periodic and place a
fixed point strictly earlier. -/
lemma traj_no_early_repeat (net : Network) (s : StateMap) (k : Nat)
    (hfix : stepState net (stepIter net k s) = stepIter net k s)
    (hfirst : ∀ j, j < k → stepState net (stepIter net j s) ≠ stepIter net j s) :
    ∀ i j, i < j → j ≤ k → stepIter net i s ≠ stepIter net j s := by
  intro i j hij hjk heq
  have hp0 : 0 < j - i := by omega
  have hper : stepIter net (j - i) (stepIter net i s) = stepIter net i s := by
    rw [← stepIter_add net i (j - i) s, show i + (j - i) = j from by omega]
    exact heq.symm
  obtain ⟨q, r, hrp, hqr⟩ : ∃ q r, r < j - i ∧ k - i = q * (j - i) + r :=
    ⟨(k - i) / (j - i), (k - i) % (j - i), Nat.mod_lt _ hp0, by
      rw [Nat.mul_comm]
      exact (Nat.div_add_mod (k - i) (j - i)).symm⟩
  have hsk : stepIter net k s = stepIter net (i + r) s := by
    have h1 : stepIter net k s = stepIter net (k - i) (stepIter net i s) := by
      rw [← stepIter_add net i (k - i) s, show i + (k - i) = k from by omega]
    rw [h1, hqr, stepIter_add net (q * (j - i)) r,
      stepIter_period net q (j - i) _ hper, ← stepIter_add net i r s]
  have hik : i + r < k := by omega
  exact hfirst (i + r) hik (by rw [← hsk]; exact hfix)

/-- The state key is injective on states with the same key list: each
character of the key determines the corresponding entry's value. -/
lemma encodeStateMap_inj : ∀ s t : StateMap, keysOf s = keysOf t →
    encodeStateMap s = encodeStateMap t → s = t
  | [], [], _, _ => rfl
  | [], _ :: _, hk, _ => by simp [keysOf] at hk
  | _ :: _, [], hk, _ => by simp [keysOf] at hk
  | (i, b) :: s, (i2, b2) :: t, hk, he => by
    simp only [keysOf, List.map_cons, List.cons.injEq] at hk
    have he2 : (if b then '1' else '0') = (if b2 then '1' else '0') ∧
        s.map (fun p => if p.2 then '1' else '0')
          = t.map (fun p => if p.2 then '1' else '0') := by
      have hd := congrArg String.data he
      simpa [encodeStateMap, List.cons.injEq] using hd
    have hb : b = b2 := by
      cases b <;> cases b2
      · rfl
      · exact absurd he2.1 (by decide)
      · exact absurd he2.1 (by decide)
      · rfl
    have hrest := encodeStateMap_inj s t hk.2 (congrArg String.mk he2.2)
    rw [hk.1, hb, hrest]

lemma idxOfKey_append_self : ∀ (l : List String) (m : String), m ∉ l →
    idxOfKey (l ++ [m]) m = l.length
  | [], m, _ => by simp [idxOfKey]
  | a :: l, m, h => by
    have ha : a ≠ m := fun hh => h (by simp [hh])
    show (if a = m then 0 else idxOfKey (l ++ [m]) m + 1) = l.length + 1
    rw [if_neg ha, idxOfKey_append_self l m (fun hh => h (by simp [hh]))]

/-- A trajectory that reaches its first fixed point after `k` steps, with
all its keys absent from the graph so far, records exactly the one-element
attractor holding the fixed point's key. -/
lemma runTrajectory_fixed_point (net : Network) :
    ∀ (k fuel : Nat) (s : StateMap) (currStates : List String) (prev : String)
      (doc : SBDocument) (atts : List (List String)),
    keysOf s = net.nodes →
    (∀ j, j ≤ k → encodeStateMap (stepIter net j s) ∉ doc.graphNodes) →
    (∀ m ∈ currStates, m ∈ doc.graphNodes) →
    stepState net (stepIter net k s) = stepIter net k s →
    (∀ j, j < k → stepState net (stepIter net j s) ≠ stepIter net j s) →
    k + 2 ≤ fuel →
    ∃ doc2, runTrajectory net fuel s currStates prev doc atts
        = some (doc2, atts ++ [[encodeStateMap (stepIter net k s)]])
  | 0, fuel, s, currStates, prev, doc, atts, _, hfresh, hsub, hfix, _, hfuel => by
    obtain ⟨f1, rfl⟩ : ∃ f1, fuel = f1 + 1 + 1 := ⟨fuel - 2, by omega⟩
    have hm0 : encodeStateMap s ∉ doc.graphNodes := hfresh 0 (by omega)
    rw [runTrajectory_step_new net (f1 + 1) s currStates prev doc atts hm0]
    have hstep : stepState net s = s := hfix
    rw [hstep]
    have hmem2 : encodeStateMap s ∈ doc.graphNodes ++ [encodeStateMap s] := by simp
    rw [runTrajectory_break net f1 s (currStates ++ [encodeStateMap s])
      (encodeStateMap s) _ atts hmem2]
    have hnotin : encodeStateMap s ∉ currStates := fun hin => hm0 (hsub _ hin)
    have hmemc : encodeStateMap s ∈ currStates ++ [encodeStateMap s] := by simp
    rw [if_pos hmemc, idxOfKey_append_self currStates _ hnotin, List.drop_left]
    exact ⟨_, rfl⟩
  | k + 1, fuel, s, currStates, prev, doc, atts, hk, hfresh, hsub, hfix, hfirst,
      hfuel => by
    obtain ⟨f1, rfl⟩ : ∃ f1, fuel = f1 + 1 := ⟨fuel - 1, by omega⟩
    have hm0 : encodeStateMap s ∉ doc.graphNodes := hfresh 0 (by omega)
    rw [runTrajectory_step_new net f1 s currStates prev doc atts hm0]
    have hfix2 : stepState net (stepIter net k (stepState net s))
        = stepIter net k (stepState net s) := hfix
    have hfirst2 : ∀ j, j < k →
        stepState net (stepIter net j (stepState net s))
          ≠ stepIter net j (stepState net s) :=
      fun j hj => hfirst (j + 1) (by omega)
    have hkeys2 : keysOf (stepState net s) = net.nodes := keysOf_stepState net s hk
    have hfresh2 : ∀ j, j ≤ k →
        encodeStateMap (stepIter net j (stepState net s))
          ∉ doc.graphNodes ++ [encodeStateMap s] := by
      intro j hj hmem
      rcases List.mem_append.1 hmem with h | h
      · exact hfresh (j + 1) (by omega) h
      · have heq : encodeStateMap (stepIter net (j + 1) s) = encodeStateMap s :=
          List.mem_singleton.1 h
        have hkeq : keysOf (stepIter net (j + 1) s) = keysOf s := by
          rw [keysOf_stepIter net (j + 1) s hk, hk]
        have hseq : stepIter net (j + 1) s = s := encodeStateMap_inj _ _ hkeq heq
        exact traj_no_early_repeat net s (k + 1) hfix hfirst 0 (j + 1) (by omega)
          (by omega) hseq.symm
    have hsub2 : ∀ m ∈ currStates ++ [encodeStateMap s],
        m ∈ doc.graphNodes ++ [encodeStateMap s] := by
      intro m hm
      rcases List.mem_append.1 hm with h | h
      · exact List.mem_append.2 (Or.inl (hsub m h))
      · exact List.mem_append.2 (Or.inr h)
    obtain ⟨doc2, hdoc2⟩ := runTrajectory_fixed_point net k f1 (stepState net s)
      (currStates ++ [encodeStateMap s]) (encodeStateMap s)
      ⟨doc.graphNodes ++ [encodeStateMap s],
        if prev.length > 0 then doc.arcs ++ [(prev, encodeStateMap s)]
        else doc.arcs⟩ atts
      hkeys2 hfresh2 hsub2 hfix2 hfirst2 (by omega)
    exact ⟨doc2, hdoc2⟩

/-- C4.  Fixed points appear as one-element attractors: a search trajectory
that (with all its states' keys absent from the transition graph built so
far) reaches a state mapped to itself by `step` records an attractor of
length 1 holding that state's key; in particular, on the one-node network
with rule `A = true`, the search from either initial state records the
single attractor of length 1 whose state decodes to `A = true`. -/
theorem fixed_point_singleton_attractor :
    (∀ (net : Network) (s : StateMap) (k fuel : Nat) (doc : SBDocument)
        (atts : List (List String)),
      keysOf s = net.nodes →
      stepState net (stepIter net k s) = stepIter net k s →
      (∀ j, j < k → stepState net (stepIter net j s) ≠ stepIter net j s) →
      (∀ j, j ≤ k → encodeStateMap (stepIter net j s) ∉ doc.graphNodes) →
      k + 2 ≤ fuel →
      ∃ doc2, runTrajectory net fuel s [] "" doc atts
          = some (doc2, atts ++ [[encodeStateMap (stepIter net k s)]])) ∧
    (∀ b : Bool, (search oneNet 3 [[("A", b)]]).map Prod.snd = some [["1"]]) ∧
    decodeStateMap ["A"] "1" = [("A", true)] := by
  refine ⟨?_, ?_, by decide⟩
  · intro net s k fuel doc atts hk hfix hfirst hfresh hfuel
    exact runTrajectory_fixed_point net k fuel s [] "" doc atts hk hfresh
      (fun m hm => absurd hm (List.not_mem_nil m)) hfix hfirst hfuel
  · intro b
    cases b <;> decide

/-- Witness for `fixed_point_singleton_attractor`: the one-node `A = true`
network from the initial state (A = false) reaches its fixed point after
one step, and the trajectory (and the whole search) records the attractor
containing exactly the key `1`. -/
theorem fixed_point_singleton_attractor_witness :
    (∃ doc2, runTrajectory oneNet 3 [("A", false)] [] ""
        { graphNodes := [], arcs := [] } []
        = some (doc2, [] ++ [[encodeStateMap (stepIter oneNet 1 [("A", false)])]])) ∧
    (search oneNet 3 [[("A", false)]]).map Prod.snd = some [["1"]] :=
  ⟨fixed_point_singleton_attractor.1 oneNet [("A", false)] 1 3
      { graphNodes := [], arcs := [] } []
      (by decide) (by decide) (by decide) (by decide) (by decide),
   fixed_point_singleton_attractor.2.1 false⟩

end BoneSim
